import Mathlib

/-!
# Verification of the `tabby` interpreter

A shallow embedding of the `tabby` tree-walking interpreter (token model,
AST, runtime values with per-value method tables, environment stack,
Pratt parser and evaluator), translated from `src/token.rs`, `src/ast.rs`,
`src/object.rs`, `src/stack.rs`, `src/parser.rs` and `src/eval.rs`, together
with theorems settling the specification claims.

Modelling conventions:
* `i32` arithmetic is modelled on `Int`; `+`, `-`, `*` use two's-complement
  wrapping (`wrap32`), division models Rust's `/` on `i32`, which aborts
  (panics) on division by zero and on `i32::MIN / -1`.
* Rust panics (`todo!()`, `unreachable_unchecked`, arithmetic aborts) are a
  distinct outcome constructor `panik`; `std::process::exit` is `exited`.
* Recursion in the parser and evaluator is bounded by fuel; running out of
  fuel is the distinct outcome `timeout`.
* `HashMap`/`HashSet` are modelled as association lists / name lists; the
  per-frame variable map is a function from names to binding stacks
  (empty stack = name absent, matching how `Stack::get` treats both).
-/

namespace Tabby

/-! ## Tokens (`src/token.rs`) -/

inductive Operator
  | assign | plus | minus | divide | multiply
  | plusEqual | minusEqual | dot | bang | hook
  | less | greater | lessOrEqual | greaterOrEqual
  | equal | notEqual | opAnd | opOr | ampersand | pipe
  deriving DecidableEq, Repr

inductive Keyword
  | kLet | kFn | kDef | kIf | kElse | kTrue | kFalse | kReturn
  deriving DecidableEq, Repr

inductive Tok
  | illegal
  | eof
  | keyword (k : Keyword)
  | ident (name : String)
  | int (val : Int)
  | str (text : String)
  | operator (o : Operator)
  | comma
  | semicolon
  | lparen
  | rparen
  | lbrace
  | rbrace
  deriving DecidableEq, Repr

/-! ## Parse errors (`src/error.rs`) -/

inductive PError
  | parseError
  | letStatement (msg : String)
  | unsupported (msg : String)
  | args (msg : String)
  | blockE (msg : String)
  | ifError (msg : String)
  | functionError (msg : String)
  | collection (msg : String)
  deriving DecidableEq, Repr

/-! ## AST (`src/ast.rs`)

`Expression::Program` carries the collected parse errors alongside the
statements, as in `ast.rs`; the evaluator ignores the error list. -/

mutual

inductive Stmt
  | letS (name : String) (value : Expr)
  | ret (value : Expr)
  | exprS (e : Expr)
  | empty
  deriving Repr

inductive Expr
  | program (statements : List Stmt) (errors : List PError)
  | identE (name : String)
  | lit (l : Lit)
  | infx (operator : Tok) (lhs rhs : Expr)
  | prefx (operator : Tok) (operand : Expr)
  | block (statements : List Stmt)
  | ifE (condition : Expr) (consequence : Expr) (alternative : Option Expr)
  | invoked (invoked : Expr) (args : List Expr)
  | indexed (indexee index : Expr)
  deriving Repr

inductive Lit
  | int (i : Int)
  | str (s : String)
  | bool (b : Bool)
  | function (parameters : List String) (body : Expr) (capture : List String)
  | collection (members : List (String × Expr))
  | vector (elements : List Expr)
  deriving Repr

end

inductive Node
  | stmt (s : Stmt)
  | expr (e : Expr)
  deriving Repr

/-! ## Runtime values (`src/object.rs`)

One inductive replaces the erased `Reference`; the `kind` tag is the
constructor.  A `Builtin` is identified by its preloaded name; its stored
closure is dispatched by `builtinCall` below. -/

inductive Value
  | intV (val : Int)
  | boolV (val : Bool)
  | strV (s : String)
  | unitV
  | vecV (elements : List Value)
  | collV (members : List (String × Value))
  | funcV (parameters : List String) (body : Expr) (capture : List (String × Value))
  | builtinV (name : String)
  deriving Repr

/-- Two's-complement wrap to `i32` (Rust release-mode overflow semantics for
`+`, `-`, `*`; no claim exercises an overflowing add/sub/mul). -/
def wrap32 (x : Int) : Int := (x + 2 ^ 31) % 2 ^ 32 - 2 ^ 31

/-- Rust `as usize` applied to an `i32` (sign-extension into a 64-bit word). -/
def usizeOfI32 (i : Int) : Nat := (i % 2 ^ 64).toNat

/-- The result of calling a v-table slot: either a Rust panic (the bare `i32`
division in `div_lhs`) or the slot's `Option<Reference>` result. -/
inductive SlotRes
  | panik
  | res (r : Option Value)
  deriving Repr

/-- `is_int` in `Integer::erased`: argument present and of Integer kind. -/
def asInt : Option Value → Option Int
  | some (.intV i) => some i
  | _ => none

/-- `is_bool` in `Bool::erased`. -/
def asBool : Option Value → Option Bool
  | some (.boolV b) => some b
  | _ => none

/-- `is_str` in `Str::erased`. -/
def asStr : Option Value → Option String
  | some (.strV s) => some s
  | _ => none

/-- `is_vec` in `Vector::erased`. -/
def asVec : Option Value → Option (List Value)
  | some (.vecV es) => some es
  | _ => none

/-- `is_collection` in `Collection::erased`. -/
def asColl : Option Value → Option (List (String × Value))
  | some (.collV ms) => some ms
  | _ => none

/-- Assoc-list lookup (modelling `HashMap::get`). -/
def lookupA (k : String) : List (String × Value) → Option Value
  | [] => none
  | (k', v) :: rest => if k' = k then some v else lookupA k rest

/-- Assoc-list key-membership (modelling `HashMap::contains_key`). -/
def containsKeyA (k : String) (m : List (String × Value)) : Bool :=
  (lookupA k m).isSome

/-- The `str` slot's semantics, shared between each value's own `str` slot
and `Vector`'s elementwise formatting (which calls the element's `str` slot
and fails when the slot is missing or returns `None`): `Integer`, `Bool` and
`Str` format their payload, a `Vector` joins its elements with `", "` and
drops the trailing separator; `Unit`, `Function`, `Builtin` and `Collection`
have no `str` slot. -/
def strOfValue : Value → Option String
  | .intV i => some (toString i)
  | .boolV b => some (if b then "true" else "false")
  | .strV s => some s
  | .vecV elements =>
    (strOfElems elements "").map fun acc => "[" ++ acc.dropRight 2 ++ "]"
  | _ => none
where
  strOfElems : List Value → String → Option String
  | [], acc => some acc
  | v :: rest, acc =>
    match strOfValue v with
    | none => none
    | some s => strOfElems rest (acc ++ s ++ ", ")

/-- The per-value method table (`VTable::get` composed with each `erased`
constructor of `src/object.rs`).  `none` = the slot is absent. -/
def vtGet : Value → String → Option (Option Value → SlotRes)
  -- Integer::erased
  | .intV val, "str" => some fun _ => .res (some (.strV (toString val)))
  | .intV val, "sub_lhs" =>
    some fun obj => .res ((asInt obj).map fun rhs => .intV (wrap32 (val - rhs)))
  | .intV val, "add_lhs" =>
    some fun obj => .res ((asInt obj).map fun rhs => .intV (wrap32 (val + rhs)))
  | .intV val, "mul_lhs" =>
    some fun obj => .res ((asInt obj).map fun rhs => .intV (wrap32 (val * rhs)))
  | .intV val, "div_lhs" =>
    some fun obj =>
      match asInt obj with
      | none => .res none
      | some rhs =>
        -- Rust `val / rhs` on i32: aborts on division by zero and on
        -- i32::MIN / -1 (quotient overflow); otherwise exact truncation.
        if rhs = 0 ∨ (val = -(2 ^ 31) ∧ rhs = -1) then .panik
        else .res (some (.intV (Int.tdiv val rhs)))
  | .intV val, "eq_lhs" =>
    some fun obj => .res ((asInt obj).map fun rhs => .boolV (val = rhs))
  | .intV val, "neq_lhs" =>
    some fun obj => .res ((asInt obj).map fun rhs => .boolV (val ≠ rhs))
  | .intV val, "le_lhs" =>
    some fun obj => .res ((asInt obj).map fun rhs => .boolV (val < rhs))
  | .intV val, "leq_lhs" =>
    some fun obj => .res ((asInt obj).map fun rhs => .boolV (val ≤ rhs))
  | .intV val, "ge_lhs" =>
    some fun obj => .res ((asInt obj).map fun rhs => .boolV (rhs < val))
  | .intV val, "geq_lhs" =>
    some fun obj => .res ((asInt obj).map fun rhs => .boolV (rhs ≤ val))
  | .intV val, "truthy" =>
    some fun _ => .res (if val > 0 then some .unitV else none)
  -- Bool::erased
  | .boolV val, "str" =>
    some fun _ => .res (some (.strV (if val then "true" else "false")))
  | .boolV val, "eq_lhs" =>
    some fun obj => .res ((asBool obj).map fun rhs => .boolV (val = rhs))
  | .boolV val, "neq_lhs" =>
    -- Faithful to the source: the slot computes `val == rhs`.
    some fun obj => .res ((asBool obj).map fun rhs => .boolV (val = rhs))
  | .boolV val, "neg" => some fun _ => .res (some (.boolV (!val)))
  | .boolV val, "inv" => some fun _ => .res (some (.boolV (!val)))
  | .boolV val, "truthy" =>
    some fun _ => .res (if val then some .unitV else none)
  -- Unit::erased
  | .unitV, "truthy" => some fun _ => .res none
  -- Function::erased
  | .funcV _ _ _, "truthy" => some fun _ => .res none
  -- Builtin::erased
  | .builtinV _, "truthy" => some fun _ => .res none
  -- Collection::erased
  | .collV _, "truthy" => some fun _ => .res none
  | .collV members, "uni_lhs" =>
    some fun obj =>
      .res ((asColl obj).map fun rhs =>
        -- HashMap union built by inserting rhs first, then self's members:
        -- the left (self) side wins on duplicate keys.
        .collV (members ++ rhs.filter fun p => !containsKeyA p.1 members))
  | .collV members, "ins_lhs" =>
    some fun obj =>
      .res ((asColl obj).map fun rhs =>
        .collV (members.filter fun p => containsKeyA p.1 rhs))
  -- Vector::erased
  | .vecV _, "truthy" => some fun _ => .res none
  | .vecV elements, "add_lhs" =>
    some fun obj => .res ((asVec obj).map fun rhs => .vecV (elements ++ rhs))
  | .vecV elements, "len" =>
    some fun _ => .res (some (.intV (wrap32 elements.length)))
  | .vecV elements, "str" =>
    some fun _ => .res ((strOfValue (.vecV elements)).map .strV)
  | .vecV elements, "idx" =>
    some fun obj =>
      match asInt obj with
      | none => .res none
      | some rhs =>
        .res (some ((elements.get? (usizeOfI32 rhs)).getD .unitV))
  -- Str::erased
  | .strV s, "truthy" =>
    -- Faithful to the source: always present, carrying `Bool(len > 0)`.
    some fun _ => .res (some (.boolV (s.length > 0)))
  | .strV s, "add_lhs" =>
    some fun obj => .res ((asStr obj).map fun rhs => .strV (s ++ rhs))
  | .strV s, "str" => some fun _ => .res (some (.strV s))
  | .strV s, "len" => some fun _ => .res (some (.intV (wrap32 s.length)))
  | _, _ => none

/-- Look up a slot and call it (`v_table().get(op)` followed by the call);
`none` = the slot was absent. -/
def vtCall (v : Value) (slot : String) (arg : Option Value) : Option SlotRes :=
  (vtGet v slot).map fun f => f arg

/-! ## Environment stack (`src/stack.rs`)

A frame's `scope` is the list of lexical scope name-sets with the innermost
scope at the **head** (the Rust `Vec` keeps it at the tail); likewise a
name's binding stack keeps the most recent `(value, depth)` pair at the
head.  A name bound to the empty stack is treated as absent, exactly as
`Stack::get` treats both cases. -/

/-- One binding-stack entry: the value and the scope depth recorded for it
(`(Reference, u32)` in the source). -/
abbrev Entry := Value × Nat

/-- `HashSet::insert` on a scope's name set. -/
def insertName (n : String) (set : List String) : List String :=
  if n ∈ set then set else n :: set

/-- The preloaded built-in names (`builtin.rs::builtins()`). -/
def builtinNames : List String := ["len", "print", "yeet", "exit"]

/-- The initial per-frame variable map: every built-in bound at depth 0. -/
def builtinsVars : String → List Entry := fun n =>
  if n ∈ builtinNames then [(.builtinV n, 0)] else []

structure Frame where
  scope : List (List String)
  vars : String → List Entry

structure Stack where
  frames : List Frame

/-- `Stack::add` on the current frame: record the name in the innermost
scope set (pushing a fresh set when none exists), then push `(val, cur_id)`
where `cur_id` is the scope length **after** that step. -/
def Frame.add (f : Frame) (ident : String) (val : Value) : Frame :=
  let scope :=
    match f.scope with
    | [] => [[ident]]
    | top :: rest => insertName ident top :: rest
  let curId := scope.length
  { scope := scope
    vars := fun n =>
      if n = ident then (val, curId) :: f.vars ident else f.vars n }

/-- `Stack::push`: enter a lexical scope. -/
def Frame.push (f : Frame) : Frame := { f with scope := [] :: f.scope }

/-- `Stack::pop`: `prev_id = scope.len() - 1` is computed before popping;
for every name recorded in the popped set, binding-stack entries are popped
while their depth is `≥ prev_id` (the first entry with a smaller depth is
kept, with everything below it). -/
def Frame.pop (f : Frame) : Frame :=
  match f.scope with
  | [] => f
  | out :: rest =>
    let prevId := rest.length
    { scope := rest
      vars := fun n =>
        if n ∈ out then (f.vars n).dropWhile (fun e => prevId ≤ e.2)
        else f.vars n }

/-- `Stack::assign` on the current frame: `cur_id = scope.len() - 1`; the
name is recorded in the innermost scope set; entries with depth `≥ cur_id`
are popped, then `(val, cur_id)` is pushed. -/
def Frame.assign (f : Frame) (ident : String) (val : Value) : Frame :=
  match f.scope with
  | [] => f
  | top :: rest =>
    let curId := rest.length
    { scope := insertName ident top :: rest
      vars := fun n =>
        if n = ident then
          (val, curId) :: (f.vars ident).dropWhile (fun e => curId ≤ e.2)
        else f.vars n }

/-- `Stack::get` on the current frame. -/
def Frame.get (f : Frame) (ident : String) : Option Value :=
  ((f.vars ident).head?).map (·.1)

namespace Stack

/-- `Stack::new`: one frame, one empty scope set, built-ins preloaded. -/
def new : Stack := ⟨[⟨[[]], builtinsVars⟩]⟩

/-- `Stack::push_frame`. -/
def push_frame (s : Stack) : Stack := ⟨⟨[[]], builtinsVars⟩ :: s.frames⟩

/-- `Stack::pop_frame` (`Vec::pop`: no-op on an empty frame list). -/
def pop_frame (s : Stack) : Stack := ⟨s.frames.tail⟩

/-- Apply `op` to the current (innermost) frame; the Rust accessors
`last_mut().unwrap()` make the empty-frame case unreachable. -/
def onFrame (s : Stack) (op : Frame → Frame) : Stack :=
  match s.frames with
  | [] => s
  | f :: rest => ⟨op f :: rest⟩

def add (s : Stack) (ident : String) (val : Value) : Stack :=
  onFrame s (Frame.add · ident val)

def push (s : Stack) : Stack := onFrame s Frame.push

def pop (s : Stack) : Stack := onFrame s Frame.pop

def assign (s : Stack) (ident : String) (val : Value) : Stack :=
  onFrame s (Frame.assign · ident val)

def get (s : Stack) (ident : String) : Option Value :=
  match s.frames with
  | [] => none
  | f :: _ => f.get ident

end Stack

/-! ## Evaluator (`src/eval.rs`)

`Flow` is the `Continue`/`Break` signal; `Res` is `Result<Flow<Reference>,
Error>` widened with the non-`Result` exits: Rust panics (`panik`),
`std::process::exit` (`exited`) and fuel exhaustion (`timeout`).  Every
evaluation returns the updated stack even on an error, mirroring that `?`
propagates `Err` without unwinding `self.stack` (in particular a block's
scope is *not* popped on the error path). -/

inductive Flow (α : Type)
  | cont (val : α)
  | brk (val : α)
  deriving Repr

def Flow.unwrap {α : Type} : Flow α → α
  | .cont v => v
  | .brk v => v

inductive Res (α : Type)
  | ok (f : Flow α)
  | err (msg : String)
  | panik
  | exited
  | timeout
  deriving Repr

abbrev EvalOut := Stack × Res Value

/-- The operator → slot-name map of `eval_infix` (`none` = the catch-all
`Err("Infix operator is not supported")`). -/
def infixSlotName : Tok → Option String
  | .operator .minus => some "sub_lhs"
  | .operator .minusEqual => some "sub_lhs"
  | .operator .plus => some "add_lhs"
  | .operator .plusEqual => some "add_lhs"
  | .operator .multiply => some "mul_lhs"
  | .operator .divide => some "div_lhs"
  | .operator .equal => some "eq_lhs"
  | .operator .notEqual => some "neq_lhs"
  | .operator .less => some "le_lhs"
  | .operator .lessOrEqual => some "leq_lhs"
  | .operator .greater => some "ge_lhs"
  | .operator .greaterOrEqual => some "geq_lhs"
  | .operator .ampersand => some "ins_lhs"
  | .operator .pipe => some "uni_lhs"
  | _ => none

/-- `HashMap::insert` on an association list (replace or append). -/
def insertAssoc (k : String) (v : Value) : List (String × Value) → List (String × Value)
  | [] => [(k, v)]
  | (k', v') :: rest =>
    if k' = k then (k, v) :: rest else (k', v') :: insertAssoc k v rest

/-- Bind parameters to arguments in order (`zip` + `Stack::add`). -/
def bindParams (s : Stack) : List String → List Value → Stack
  | p :: ps, a :: rest => bindParams (s.add p a) ps rest
  | _, _ => s

/-- Bind the captured name → value pairs (`Stack::add`). -/
def bindCapture (s : Stack) : List (String × Value) → Stack
  | [] => s
  | (i, v) :: rest => bindCapture (s.add i v) rest

/-- The capture fold of `eval_invoke`'s companion `eval_function`: look up
every name of the literal's capture list, failing on the first unknown. -/
def captureFold (s : Stack) : List String → List (String × Value) →
    Except String (List (String × Value))
  | [], acc => .ok acc
  | i :: rest, acc =>
    match s.get i with
    | some v => captureFold s rest (acc ++ [(i, v)])
    | none =>
      .error ("Attempting to capture unknown variable " ++ i ++
        " in function decleration.")

/-- `Eval::eval_function`: snapshot the capture list, build the value. -/
def eval_function (s : Stack) (parameters : List String) (body : Expr)
    (capture : List String) : EvalOut :=
  match captureFold s capture [] with
  | .ok map => (s, .ok (.cont (.funcV parameters body map)))
  | .error msg => (s, .err msg)

/-- The four preloaded builtins of `src/builtin.rs` (`print`'s write to
stdout is dropped; `exit`/`yeet` terminate the process). -/
def builtinCall (name : String) (args : List Value) : Res Value :=
  match name, args with
  | "len", [a] =>
    (match vtCall a "len" none with
     | some (.res (some (.intV n))) => .ok (.cont (.intV n))
     | some .panik => .panik
     | _ => .err "Object does not implement len operation.")
  | "len", _ => .err "Incorrect number of arguments used for len()"
  | "print", [a] =>
    (match vtGet a "str" with
     | none => .err "Object passed to print does not have a string represenetation."
     | some f =>
       match f none with
       | .panik => .panik
       | .res r =>
         match r.getD (.strV "") with
         | .strV _ => .ok (.cont .unitV)
         | _ => .err "Object did not return valid string representation.")
  | "print", _ => .err "Incorrect number of arguments used for print()"
  | "yeet", [] => .exited
  | "yeet", _ => .err "Incorrect number of arguments used for len()"
  | "exit", [] => .exited
  | "exit", _ => .err "Incorrect number of arguments used for len()"
  | _, _ => .err "unknown builtin"

mutual

/-- `Eval::eval`, the main dispatch.  The `Statement::Empty` case falls into
the source's `_ => todo!()` arm and panics. -/
def evalNode : Nat → Stack → Node → EvalOut
  | 0, s, _ => (s, .timeout)
  | fuel + 1, s, n =>
    match n with
    | .stmt (.exprS e) => evalNode fuel s (.expr e)
    | .expr (.lit (.int v)) => (s, .ok (.cont (.intV v)))
    | .expr (.lit (.bool b)) => (s, .ok (.cont (.boolV b)))
    | .expr (.lit (.str text)) => (s, .ok (.cont (.strV text)))
    | .expr (.identE name) =>
      (match s.get name with
       | some v => (s, .ok (.cont v))
       | none => (s, .err ("Variable " ++ name ++ " not found in scope")))
    | .expr (.prefx operator operand) => eval_prefix fuel s operator operand
    | .expr (.infx operator lhs rhs) => eval_infix fuel s operator lhs rhs
    | .expr (.ifE c cq alt) => eval_if fuel s c cq alt
    | .expr (.block statements) =>
      (match eval_statements fuel s.push statements (.cont .unitV) with
       | (s', .ok f) => (s'.pop, .ok f)
       | other => other)
    | .expr (.program statements _) =>
      eval_statements fuel s statements (.cont .unitV)
    | .stmt (.ret value) =>
      (match evalNode fuel s (.expr value) with
       | (s', .ok f) => (s', .ok (.brk f.unwrap))
       | other => other)
    | .stmt (.letS name value) =>
      eval_assign fuel s (.operator .assign) (.identE name) value
    | .expr (.invoked invoked args) => eval_invoke fuel s invoked args
    | .expr (.lit (.function parameters body capture)) =>
      eval_function s parameters body capture
    | .expr (.lit (.collection members)) => eval_coll_lit fuel s members []
    | .expr (.lit (.vector elements)) => eval_vec_lit fuel s elements []
    | .expr (.indexed indexee index) => eval_index fuel s indexee index
    | .stmt .empty => (s, .panik)

/-- `Eval::eval_statements`: thread the last value, short-circuit `Break`. -/
def eval_statements : Nat → Stack → List Stmt → Flow Value → EvalOut
  | 0, s, _, _ => (s, .timeout)
  | _ + 1, s, [], ret => (s, .ok ret)
  | fuel + 1, s, st :: rest, _ =>
    match evalNode fuel s (.stmt st) with
    | (s', .ok (.cont v)) => eval_statements fuel s' rest (.cont v)
    | (s', .ok (.brk v)) => (s', .ok (.brk v))
    | other => other

/-- `Eval::eval_prefix`: `!` → `inv`, `-` → `neg`; any other operator hits
`unreachable_unchecked`. -/
def eval_prefix : Nat → Stack → Tok → Expr → EvalOut
  | 0, s, _, _ => (s, .timeout)
  | fuel + 1, s, operator, operand =>
    match evalNode fuel s (.expr operand) with
    | (s', .ok (.brk v)) => (s', .ok (.brk v))
    | (s', .ok (.cont v)) =>
      (match (match operator with
              | .operator .bang => some "inv"
              | .operator .minus => some "neg"
              | _ => none) with
       | none => (s', .panik)
       | some slotName =>
         match vtCall v slotName none with
         | some (.res (some r)) => (s', .ok (.cont r))
         | some .panik => (s', .panik)
         | _ => (s', .err "Unsupported operator for operand type"))
    | other => other

/-- `Eval::eval_infix`: assignment and access are routed away first, then
both sides are evaluated (each `Break` short-circuits) and the slot from
`infixSlotName` is dispatched on the left value. -/
def eval_infix : Nat → Stack → Tok → Expr → Expr → EvalOut
  | 0, s, _, _, _ => (s, .timeout)
  | fuel + 1, s, operator, lhs, rhs =>
    match operator with
    | .operator .assign => eval_assign fuel s operator lhs rhs
    | .operator .plusEqual => eval_assign fuel s operator lhs rhs
    | .operator .minusEqual => eval_assign fuel s operator lhs rhs
    | .operator .dot => eval_access fuel s operator lhs rhs
    | _ =>
      match evalNode fuel s (.expr lhs) with
      | (s', .ok (.brk v)) => (s', .ok (.brk v))
      | (s', .ok (.cont lv)) =>
        (match evalNode fuel s' (.expr rhs) with
         | (s'', .ok (.brk v)) => (s'', .ok (.brk v))
         | (s'', .ok (.cont rv)) =>
           (match infixSlotName operator with
            | none => (s'', .err "Infix operator is not supported")
            | some op =>
              match vtCall lv op (some rv) with
              | some (.res (some r)) => (s'', .ok (.cont r))
              | some .panik => (s'', .panik)
              | _ => (s'', .err "Unsupported operator for operand types"))
         | other => other)
      | other => other

/-- `Eval::eval_assign`: `lhs` is an identifier (bind-or-update through
`Stack::assign`, compound assignment dispatching `add_lhs`/`sub_lhs`), a
dotted access (member assignment), or an error after evaluating `lhs`. -/
def eval_assign : Nat → Stack → Tok → Expr → Expr → EvalOut
  | 0, s, _, _, _ => (s, .timeout)
  | fuel + 1, s, operator, lhs, rhs =>
    match lhs with
    | .infx (.operator .dot) collection accessor =>
      eval_access_assign fuel s operator collection accessor rhs
    | .identE name =>
      (match evalNode fuel s (.expr rhs) with
       | (s', .ok (.brk v)) => (s', .ok (.brk v))
       | (s', .ok (.cont rv)) =>
         (match operator with
          | .operator .plusEqual | .operator .minusEqual =>
            let op := if operator = .operator .plusEqual then "add_lhs" else "sub_lhs"
            (match s'.get name with
             | none => (s', .err ("Identifier " ++ name ++ " not found in scope"))
             | some lv =>
               match vtCall lv op (some rv) with
               | some (.res (some r)) => (s'.assign name r, .ok (.cont r))
               | some .panik => (s', .panik)
               | _ => (s', .err "Unsupported operator for operand types"))
          | _ => (s'.assign name rv, .ok (.cont rv)))
       | other => other)
    | _ =>
      match evalNode fuel s (.expr lhs) with
      | (s', .ok _) => (s', .err "Exprected identifier in assignment")
      | other => other

/-- `Eval::eval_access`: the left side must be a collection literal or an
identifier bound to a `Collection`; the right side must be an identifier
(not evaluated) naming a member. -/
def eval_access : Nat → Stack → Tok → Expr → Expr → EvalOut
  | 0, s, _, _, _ => (s, .timeout)
  | fuel + 1, s, _operator, lhs, rhs =>
    let collRes : EvalOut :=
      match lhs with
      | .lit (.collection ms) =>
        (match evalNode fuel s (.expr (.lit (.collection ms))) with
         | (s', .ok cf) => (s', .ok (.cont cf.unwrap))
         | other => other)
      | .identE name =>
        (match s.get name with
         | some c => (s, .ok (.cont c))
         | none => (s, .err ("Cannot find " ++ name ++ " in the current scope.")))
      | _ => (s, .err "Accessing non-collection types is not supported.")
    match collRes with
    | (s', .ok cf) =>
      (match cf.unwrap with
       | .collV members =>
         (match rhs with
          | .identE i =>
            (match lookupA i members with
             | some mem => (s', .ok (.cont mem))
             | none =>
               (s', .err ("Collection does not contain the member " ++ i ++ ".")))
          | _ =>
            match evalNode fuel s' (.expr rhs) with
            | (s'', .ok _) => (s'', .err "Exprected identifier as accessor")
            | other => other)
       | _ => (s', .err "Accessing non-collection types is not supported"))
    | other => other

/-- `Eval::eval_access_assign`: member assignment.  The source swaps the
collection's shared member map for a copied, updated one through the
mutable reference; object identity/aliasing is outside this pure value
model, so only the statement's own result (`rhs`) is kept. -/
def eval_access_assign : Nat → Stack → Tok → Expr → Expr → Expr → EvalOut
  | 0, s, _, _, _, _ => (s, .timeout)
  | fuel + 1, s, _operator, collection, accessor, rhs =>
    match evalNode fuel s (.expr collection) with
    | (s', .ok cf) =>
      (match accessor with
       | .identE _ =>
         (match cf.unwrap with
          | .collV _ =>
            (match evalNode fuel s' (.expr rhs) with
             | (s'', .ok (.brk v)) => (s'', .ok (.brk v))
             | (s'', .ok (.cont rv)) => (s'', .ok (.cont rv))
             | other => other)
          | _ => (s', .err "Only collections can be accessed."))
       | _ => (s', .err "Collection can only be accessed via an ident."))
    | other => other

/-- `Eval::eval_invoke`: evaluate callee then arguments (per-argument
flows are unwrapped by the source's `arg.unwrap()`), dispatch builtins,
check arity, push an activation frame, bind parameters then captures,
evaluate the body and pop the frame — returning the body's `Flow`
**unchanged** (a `Break` is not unwrapped to `Continue`). -/
def eval_invoke : Nat → Stack → Expr → List Expr → EvalOut
  | 0, s, _, _ => (s, .timeout)
  | fuel + 1, s, invoked, args =>
    match evalNode fuel s (.expr invoked) with
    | (s', .ok ff) =>
      (match eval_args fuel s' args [] with
       | (s'', .ok argf) =>
         (match ff.unwrap with
          | .builtinV name => (s'', builtinCall name argf.unwrap)
          | .funcV parameters body capture =>
            if parameters.length ≠ argf.unwrap.length then
              (s'', .err "Incorrect number of arguments passed for invocation")
            else
              let sIn := bindCapture (bindParams s''.push_frame parameters argf.unwrap) capture
              (match evalNode fuel sIn (.expr body) with
               | (sOut, r) => (sOut.pop_frame, r))
          | _ => (s'', .err "Inovking non-function types is not supported"))
       | (s'', .err m) => (s'', .err m)
       | (s'', .panik) => (s'', .panik)
       | (s'', .exited) => (s'', .exited)
       | (s'', .timeout) => (s'', .timeout))
    | other => other

/-- The argument try-fold of `eval_invoke` (each argument's `Flow` is
unwrapped, so a `Break` among the arguments is swallowed, as in the
source). -/
def eval_args : Nat → Stack → List Expr → List Value → Stack × Res (List Value)
  | 0, s, _, _ => (s, .timeout)
  | _ + 1, s, [], acc => (s, .ok (.cont acc))
  | fuel + 1, s, a :: rest, acc =>
    match evalNode fuel s (.expr a) with
    | (s', .ok f) => eval_args fuel s' rest (acc ++ [f.unwrap])
    | (s', .err m) => (s', .err m)
    | (s', .panik) => (s', .panik)
    | (s', .exited) => (s', .exited)
    | (s', .timeout) => (s', .timeout)

/-- The member try-fold of the `Literal::Collection` case (each member's
`Flow` is dropped by the deref-clone in the source). -/
def eval_coll_lit : Nat → Stack → List (String × Expr) → List (String × Value) → EvalOut
  | 0, s, _, _ => (s, .timeout)
  | _ + 1, s, [], acc => (s, .ok (.cont (.collV acc)))
  | fuel + 1, s, (i, e) :: rest, acc =>
    match evalNode fuel s (.expr e) with
    | (s', .ok f) => eval_coll_lit fuel s' rest (insertAssoc i f.unwrap acc)
    | other => other

/-- The element try-fold of the `Literal::Vector` case. -/
def eval_vec_lit : Nat → Stack → List Expr → List Value → EvalOut
  | 0, s, _, _ => (s, .timeout)
  | _ + 1, s, [], acc => (s, .ok (.cont (.vecV acc)))
  | fuel + 1, s, e :: rest, acc =>
    match evalNode fuel s (.expr e) with
    | (s', .ok f) => eval_vec_lit fuel s' rest (acc ++ [f.unwrap])
    | other => other

/-- `Eval::eval_if`: truthiness is the *presence* of the `truthy` slot's
result; absence selects the alternative (or `Unit`). -/
def eval_if : Nat → Stack → Expr → Expr → Option Expr → EvalOut
  | 0, s, _, _, _ => (s, .timeout)
  | fuel + 1, s, condition, consequence, alternative =>
    match evalNode fuel s (.expr condition) with
    | (s', .ok (.brk v)) => (s', .ok (.brk v))
    | (s', .ok (.cont cv)) =>
      (match vtGet cv "truthy" with
       | none => (s', .err "Condition type is not fit for conditions.")
       | some f =>
         match f none with
         | .panik => (s', .panik)
         | .res (some _) => evalNode fuel s' (.expr consequence)
         | .res none =>
           match alternative with
           | some alt => evalNode fuel s' (.expr alt)
           | none => (s', .ok (.cont .unitV)))
    | other => other

/-- `Eval::eval_index`: the index is evaluated first, then the indexee;
the `idx` slot is dispatched with the index value. -/
def eval_index : Nat → Stack → Expr → Expr → EvalOut
  | 0, s, _, _ => (s, .timeout)
  | fuel + 1, s, indexee, index =>
    match evalNode fuel s (.expr index) with
    | (s', .ok ixf) =>
      (match evalNode fuel s' (.expr indexee) with
       | (s'', .ok eef) =>
         (match vtCall eef.unwrap "idx" (some ixf.unwrap) with
          | none => (s'', .err "Object does not support indexing")
          | some .panik => (s'', .panik)
          | some (.res none) => (s'', .err "Indexing not supported with this object.")
          | some (.res (some v)) => (s'', .ok (.cont v)))
       | other => other)
    | other => other

end

/-! ## Parser (`src/parser.rs`)

The parser is modelled over the `Lexer` interface: a finite token list
that yields `EOF` forever once exhausted.  `PState` is the parser's
`cur`/`peek` lookahead window plus the collected error list (`self.errors`,
pushed to by `parse_program` and `parse_block`).  `PR` is the parse
result: `Ok`, a thrown `Err` (carrying the parser state for the caller to
record), a Rust panic (`parse_expression`'s `todo!()` nud arm and the
`unreachable_unchecked` calls), or fuel exhaustion. -/

structure PState where
  cur : Tok
  peek : Tok
  rest : List Tok
  errors : List PError
  deriving Repr

/-- `Parser::next_token`: shift the lookahead window. -/
def PState.next (st : PState) : PState :=
  match st.rest with
  | [] => { st with cur := st.peek, peek := .eof }
  | t :: ts => { st with cur := st.peek, peek := t, rest := ts }

/-- `Parser::new`: pull the first two tokens. -/
def PState.init (toks : List Tok) : PState :=
  match toks with
  | [] => ⟨.eof, .eof, [], []⟩
  | [t] => ⟨t, .eof, [], []⟩
  | t :: u :: rest => ⟨t, u, rest, []⟩

inductive PR (α : Type)
  | ok (a : α) (st : PState)
  | thrown (e : PError) (st : PState)
  | panik
  | timeout
  deriving Repr

/-- `Program` (`src/ast.rs`): statements plus collected parse errors. -/
structure Program where
  statements : List Stmt
  errors : List PError
  deriving Repr

/-- The Pratt precedence levels. -/
inductive Precedence
  | lowest
  | assignP
  | equals
  | lessGreater
  | sum
  | product
  | prefixP
  | invoke
  deriving DecidableEq, Repr

/-- `Precedence::int`. -/
def Precedence.int : Precedence → Int
  | .lowest => 0
  | .assignP => 1
  | .equals => 2
  | .lessGreater => 3
  | .sum => 4
  | .product => 5
  | .prefixP => 6
  | .invoke => 7

/-- `Parser::precendence` (sic): the token → precedence table. -/
def precendence : Tok → Precedence
  | .lparen => .invoke
  | .operator .divide => .product
  | .operator .multiply => .product
  | .operator .plus => .sum
  | .operator .minus => .sum
  | .operator .assign => .assignP
  | .operator .equal => .equals
  | .operator .notEqual => .equals
  | .operator .less => .lessGreater
  | .operator .lessOrEqual => .lessGreater
  | .operator .greater => .lessGreater
  | .operator .greaterOrEqual => .lessGreater
  | _ => .lowest

/-- `Parser::expect_peek`: test the peeked token, throw `e` on mismatch,
advance on match. -/
def expect_peek (st : PState) (f : Tok → Bool) (e : PError) : PR Unit :=
  if f st.peek then .ok () st.next else .thrown e st

/-- The tokens handled by a led arm of `parse_expression`'s loop (the
binary-operator arm or the invocation arm); everything else breaks. -/
def isLedOperator : Tok → Bool
  | .operator .assign => true
  | .operator .plus => true
  | .operator .minus => true
  | .operator .divide => true
  | .operator .multiply => true
  | .operator .equal => true
  | .operator .notEqual => true
  | .operator .less => true
  | .operator .lessOrEqual => true
  | .operator .greater => true
  | .operator .greaterOrEqual => true
  | _ => false

mutual

/-- `Parser::parse_expression`: pick the nud by `cur` — the catch-all arm
is the source's `todo!()`, a panic (the parser's `Token` enumeration
predates `Str`, which has no nud handler and falls into the same arm) —
then run the led loop. -/
def parse_expression : Nat → Precedence → PState → PR Expr
  | 0, _, _ => .timeout
  | fuel + 1, precedence, st =>
    let nud : PR Expr :=
      match st.cur with
      | .lparen => parse_grouped fuel st
      | .lbrace => parse_block fuel st
      | .ident name => .ok (.identE name) st
      | .int v => .ok (.lit (.int v)) st
      | .keyword .kIf => parse_if fuel st
      | .keyword .kTrue => .ok (.lit (.bool true)) st
      | .keyword .kFalse => .ok (.lit (.bool false)) st
      | .keyword .kFn => parse_function fuel st
      | .operator .bang => parse_prefix_op fuel st
      | .operator .minus => parse_prefix_op fuel st
      | _ => .panik
    match nud with
    | .ok lhs st' => parse_led fuel precedence lhs st'
    | other => other

/-- The `while` loop of `parse_expression`: while `peek` is not `;` and
`precedence < precedence(peek)`, advance and dispatch the led. -/
def parse_led : Nat → Precedence → Expr → PState → PR Expr
  | 0, _, _, _ => .timeout
  | fuel + 1, precedence, lhs, st =>
    if st.peek = .semicolon ∨ ¬ precedence.int < (precendence st.peek).int then
      .ok lhs st
    else if isLedOperator st.peek then
      match parse_infix_operator fuel lhs st.next with
      | .ok lhs' st' => parse_led fuel precedence lhs' st'
      | other => other
    else if st.peek = .lparen then
      match parse_invoke fuel lhs st.next with
      | .ok lhs' st' => parse_led fuel precedence lhs' st'
      | other => other
    else
      .ok lhs st

/-- `Parser::parse_infix_operator`: right side parsed at the operator's own
precedence (left-associative binaries). -/
def parse_infix_operator : Nat → Expr → PState → PR Expr
  | 0, _, _ => .timeout
  | fuel + 1, lhs, st =>
    let precedence := precendence st.cur
    let operator := st.cur
    match parse_expression fuel precedence st.next with
    | .ok rhs st' => .ok (.infx operator lhs rhs) st'
    | other => other

/-- `Parser::parse_prefix`. -/
def parse_prefix_op : Nat → PState → PR Expr
  | 0, _ => .timeout
  | fuel + 1, st =>
    let operator := st.cur
    match parse_expression fuel .prefixP st.next with
    | .ok operand st' => .ok (.prefx operator operand) st'
    | other => other

/-- `Parser::parse_grouped`. -/
def parse_grouped : Nat → PState → PR Expr
  | 0, _ => .timeout
  | fuel + 1, st =>
    match parse_expression fuel .lowest st.next with
    | .ok e st' =>
      (match expect_peek st' (· = .rparen) .parseError with
       | .ok _ st'' => .ok e st''
       | .thrown er st'' => .thrown er st''
       | .panik => .panik
       | .timeout => .timeout)
    | other => other

/-- `Parser::parse_block`: statements until `}` or `EOF`; thrown statement
errors are appended to `self.errors` and parsing continues. -/
def parse_block : Nat → PState → PR Expr
  | 0, _ => .timeout
  | fuel + 1, st => parse_block_loop fuel st.next []

def parse_block_loop : Nat → PState → List Stmt → PR Expr
  | 0, _, _ => .timeout
  | fuel + 1, st, acc =>
    if st.cur = .rbrace ∨ st.cur = .eof then .ok (.block acc) st
    else
      match parse_statement fuel st with
      | .ok stmt st' => parse_block_loop fuel st'.next (acc ++ [stmt])
      | .thrown e st' =>
        parse_block_loop fuel ({ st' with errors := st'.errors ++ [e] }).next acc
      | .panik => .panik
      | .timeout => .timeout

/-- `Parser::parse_statement`. -/
def parse_statement : Nat → PState → PR Stmt
  | 0, _ => .timeout
  | fuel + 1, st =>
    match st.cur with
    | .keyword .kLet =>
      (match parse_let fuel st with
       | .ok l st' => .ok l st'
       | .thrown e st' => .thrown e st'
       | .panik => .panik
       | .timeout => .timeout)
    | .keyword .kReturn =>
      (match parse_return fuel st with
       | .ok r st' => .ok r st'
       | .thrown e st' => .thrown e st'
       | .panik => .panik
       | .timeout => .timeout)
    | .semicolon => .ok .empty st
    | _ =>
      match parse_expression fuel .lowest st with
      | .ok e st' =>
        if st'.peek = .semicolon then .ok (.exprS e) st'.next
        else .ok (.exprS e) st'
      | .thrown e st' => .thrown e st'
      | .panik => .panik
      | .timeout => .timeout

/-- `Parser::parse_let`. -/
def parse_let : Nat → PState → PR Stmt
  | 0, _ => .timeout
  | fuel + 1, st =>
    match expect_peek st (fun t => match t with | .ident _ => true | _ => false)
        (.letStatement "Expected identifier after `let`") with
    | .ok _ st1 =>
      (match st1.cur with
       | .ident name =>
         (match expect_peek st1 (· = .operator .assign)
             (.letStatement "Expected assignment operator after identifier") with
          | .ok _ st2 =>
            (match parse_expression fuel .lowest st2.next with
             | .ok value st3 =>
               (match expect_peek st3 (· = .semicolon)
                   (.letStatement "Expected semicolon at the end of statment") with
                | .ok _ st4 => .ok (.letS name value) st4
                | .thrown e st4 => .thrown e st4
                | .panik => .panik
                | .timeout => .timeout)
             | .thrown e st3 => .thrown e st3
             | .panik => .panik
             | .timeout => .timeout)
          | .thrown e st2 => .thrown e st2
          | .panik => .panik
          | .timeout => .timeout)
       | _ => .panik)   -- `unreachable_unchecked`
    | .thrown e st1 => .thrown e st1
    | .panik => .panik
    | .timeout => .timeout

/-- `Parser::parse_return`. -/
def parse_return : Nat → PState → PR Stmt
  | 0, _ => .timeout
  | fuel + 1, st =>
    match parse_expression fuel .lowest st.next with
    | .ok value st' =>
      (match expect_peek st' (· = .semicolon)
          (.letStatement "Expected semicolon at the end of statment") with
       | .ok _ st'' => .ok (.ret value) st''
       | .thrown e st'' => .thrown e st''
       | .panik => .panik
       | .timeout => .timeout)
    | .thrown e st' => .thrown e st'
    | .panik => .panik
    | .timeout => .timeout

/-- `Parser::parse_if`. -/
def parse_if : Nat → PState → PR Expr
  | 0, _ => .timeout
  | fuel + 1, st =>
    match parse_expression fuel .lowest st.next with
    | .ok condition st1 =>
      (match expect_peek st1 (· = .lbrace)
          (.ifError "Expected expression block after condition") with
       | .ok _ st2 =>
         (match parse_block fuel st2 with
          | .ok consequence st3 =>
            if st3.peek ≠ .keyword .kElse then
              .ok (.ifE condition consequence none) st3
            else
              (match expect_peek st3.next (· = .lbrace)
                  (.ifError "Expected expression block after else") with
               | .ok _ st4 =>
                 (match parse_block fuel st4 with
                  | .ok alternative st5 =>
                    .ok (.ifE condition consequence (some alternative)) st5
                  | .thrown e st5 => .thrown e st5
                  | .panik => .panik
                  | .timeout => .timeout)
               | .thrown e st4 => .thrown e st4
               | .panik => .panik
               | .timeout => .timeout)
          | .thrown e st3 => .thrown e st3
          | .panik => .panik
          | .timeout => .timeout)
       | .thrown e st2 => .thrown e st2
       | .panik => .panik
       | .timeout => .timeout)
    | .thrown e st1 => .thrown e st1
    | .panik => .panik
    | .timeout => .timeout

/-- `Parser::parse_function`: `parser.rs` constructs the `Function` literal
without a capture list — the capture recorded in the AST is empty. -/
def parse_function : Nat → PState → PR Expr
  | 0, _ => .timeout
  | fuel + 1, st =>
    match expect_peek st (· = .lparen)
        (.functionError "Expected parentheses after `fn` keyword") with
    | .ok _ st1 =>
      (match parse_params fuel st1.next [] with
       | .ok parameters st2 =>
         if st2.cur ≠ .rparen then
           .thrown (.functionError "Expected closing parentheses at function declaration") st2
         else
           (match expect_peek st2 (· = .lbrace)
               (.functionError "Expected function body") with
            | .ok _ st3 =>
              (match parse_block fuel st3 with
               | .ok body st4 => .ok (.lit (.function parameters body [])) st4
               | .thrown e st4 => .thrown e st4
               | .panik => .panik
               | .timeout => .timeout)
            | .thrown e st3 => .thrown e st3
            | .panik => .panik
            | .timeout => .timeout)
       | .thrown e st2 => .thrown e st2
       | .panik => .panik
       | .timeout => .timeout)
    | .thrown e st1 => .thrown e st1
    | .panik => .panik
    | .timeout => .timeout

/-- The parameter loop of `parse_function`: while `cur` is an identifier,
record it, skip a following comma, advance. -/
def parse_params : Nat → PState → List String → PR (List String)
  | 0, _, _ => .timeout
  | fuel + 1, st, acc =>
    match st.cur with
    | .ident name =>
      let st' := if st.peek = .comma then st.next else st
      parse_params fuel st'.next (acc ++ [name])
    | _ => .ok acc st

/-- `Parser::parse_invoke`: comma-separated arguments until `)`. -/
def parse_invoke : Nat → Expr → PState → PR Expr
  | 0, _, _ => .timeout
  | fuel + 1, lhs, st => parse_invoke_loop fuel lhs st []

def parse_invoke_loop : Nat → Expr → PState → List Expr → PR Expr
  | 0, _, _, _ => .timeout
  | fuel + 1, lhs, st, acc =>
    if ¬ (st.peek ≠ .rparen ∧ st.cur ≠ .eof) then
      match expect_peek st (· = .rparen)
          (.functionError "Expected closing parentheses at function invocation") with
      | .ok _ st' => .ok (.invoked lhs acc) st'
      | .thrown e st' => .thrown e st'
      | .panik => .panik
      | .timeout => .timeout
    else
      match parse_expression fuel .lowest st.next with
      | .ok arg st' =>
        let st'' := if st'.peek = .comma then st'.next else st'
        parse_invoke_loop fuel lhs st'' (acc ++ [arg])
      | .thrown e st' => .thrown e st'
      | .panik => .panik
      | .timeout => .timeout

end

/-- The statement loop of `Parser::parse_program`: thrown statement errors
are pushed onto `self.errors` and parsing continues with the next token. -/
def parse_program_loop : Nat → PState → List Stmt → PR Program
  | 0, _, _ => .timeout
  | fuel + 1, st, acc =>
    if st.cur = .eof then .ok ⟨acc, st.errors⟩ st
    else
      match parse_statement fuel st with
      | .ok stmt st' => parse_program_loop fuel st'.next (acc ++ [stmt])
      | .thrown e st' =>
        parse_program_loop fuel ({ st' with errors := st'.errors ++ [e] }).next acc
      | .panik => .panik
      | .timeout => .timeout

/-- `Parser::new` + `Parser::parse_program` over a token list. -/
def parse_program (fuel : Nat) (toks : List Tok) : PR Program :=
  parse_program_loop fuel (PState.init toks) []

/-- The whole pipeline on a token list: parse, then evaluate the resulting
program from a fresh stack (as the REPL evaluates each line).  `none` when
the parser did not return a program. -/
def runProgram (fuel : Nat) (toks : List Tok) : Option (Res Value) :=
  match parse_program fuel toks with
  | .ok prog _ =>
    some (evalNode fuel Stack.new (.expr (.program prog.statements prog.errors))).2
  | _ => none

/-- The statement list produced by a successful parse. -/
def parsedStmts (fuel : Nat) (toks : List Tok) : Option (List Stmt) :=
  match parse_program fuel toks with
  | .ok p _ => some p.statements
  | _ => none

/-! ## Claims -/

/-! ### C1: return unwinding at the call boundary -/

/-- Tokens of `let f = fn() { return 7; }; f(); 99;`. -/
def c1Toks : List Tok :=
  [.keyword .kLet, .ident "f", .operator .assign,
   .keyword .kFn, .lparen, .rparen, .lbrace,
   .keyword .kReturn, .int 7, .semicolon, .rbrace, .semicolon,
   .ident "f", .lparen, .rparen, .semicolon,
   .int 99, .semicolon]

/-- Claim C1 (code bug): the claim states that a `Break` produced by the
function body is unwrapped to `Continue` at the invocation boundary, so
`return` never escapes the call.  `eval_invoke` returns the body's `Flow`
unchanged: running `let f = fn() { return 7; }; f(); 99;` the invocation
yields `Break(7)`, which short-circuits the caller's statement list — the
whole program evaluates to `Break(7)` and the trailing `99` is never
reached (the claim demands `Continue`, with the program ending at `99`). -/
theorem c1_return_break_escapes_call :
    runProgram 100 c1Toks = some (.ok (.brk (.intV 7))) ∧
    some (Res.ok (Flow.brk (Value.intV 7))) ≠
      some (Res.ok (Flow.cont (Value.intV 99))) :=
  ⟨rfl, by simp⟩

/-! ### C2: closure capture -/

/-- Tokens of
`let makeAdder = fn(x) { fn(y) { x + y } }; let add2 = makeAdder(2); add2(40);`. -/
def c2Toks : List Tok :=
  [.keyword .kLet, .ident "makeAdder", .operator .assign,
   .keyword .kFn, .lparen, .ident "x", .rparen, .lbrace,
   .keyword .kFn, .lparen, .ident "y", .rparen, .lbrace,
   .ident "x", .operator .plus, .ident "y", .rbrace, .rbrace, .semicolon,
   .keyword .kLet, .ident "add2", .operator .assign,
   .ident "makeAdder", .lparen, .int 2, .rparen, .semicolon,
   .ident "add2", .lparen, .int 40, .rparen, .semicolon]

/-- Claim C2 (code bug): the claim states free names of a function body are
captured at declaration, making the `makeAdder` program evaluate to `42`.
`parse_function` constructs the `Function` literal with an empty capture
list, so `eval_function` snapshots nothing and the inner function's body
cannot resolve `x`: the program aborts with the evaluation error
`Variable x not found in scope` instead of producing `42`. -/
theorem c2_capture_list_empty_makeadder_fails :
    runProgram 200 c2Toks = some (.err "Variable x not found in scope") ∧
    some (Res.err "Variable x not found in scope") ≠
      some (Res.ok (Flow.cont (Value.intV 42))) :=
  ⟨rfl, by simp⟩

/-! ### C4: parse trees dictated by the precedence table -/

/-- Tokens of `a = b = c;`. -/
def c4AssignToks : List Tok :=
  [.ident "a", .operator .assign, .ident "b", .operator .assign,
   .ident "c", .semicolon]

/-- Claim C4, counterexample: `a = b = c` parses **left**-nested,
`(a = b) = c` — `parse_infix_operator` parses the right side at the
operator's own precedence, and the led loop's `min_prec < prec(peek)` is
strict, so `=` associates to the left like every other binary (the
repository's own parser test expects exactly this tree).  The claim's
right-nested tree `a = (b = c)` is a different tree. -/
theorem c4_assignment_parses_left_nested :
    parsedStmts 50 c4AssignToks =
      some [.exprS (.infx (.operator .assign)
        (.infx (.operator .assign) (.identE "a") (.identE "b"))
        (.identE "c"))] ∧
    some [Stmt.exprS (.infx (.operator .assign)
        (.infx (.operator .assign) (.identE "a") (.identE "b"))
        (.identE "c"))] ≠
      some [Stmt.exprS (.infx (.operator .assign) (.identE "a")
        (.infx (.operator .assign) (.identE "b") (.identE "c")))] :=
  ⟨rfl, by simp⟩

/-- Claim C4, amended: the four parses dictated by the precedence table,
with assignment associating to the **left**: `1 + 2 * 3` ≡ `1 + (2 * 3)`,
`a = b = c` ≡ `(a = b) = c`, `!-x` ≡ `!(-x)`, `f(1,2)+3` ≡ `(f(1,2))+3`,
for arbitrary identifier operands. -/
theorem c4_precedence_table_parses :
    ∀ a b c f x : String,
    parsedStmts 50 [.int 1, .operator .plus, .int 2, .operator .multiply,
        .int 3, .semicolon] =
      some [.exprS (.infx (.operator .plus) (.lit (.int 1))
        (.infx (.operator .multiply) (.lit (.int 2)) (.lit (.int 3))))] ∧
    parsedStmts 50 [.ident a, .operator .assign, .ident b, .operator .assign,
        .ident c, .semicolon] =
      some [.exprS (.infx (.operator .assign)
        (.infx (.operator .assign) (.identE a) (.identE b)) (.identE c))] ∧
    parsedStmts 50 [.operator .bang, .operator .minus, .ident x, .semicolon] =
      some [.exprS (.prefx (.operator .bang)
        (.prefx (.operator .minus) (.identE x)))] ∧
    parsedStmts 50 [.ident f, .lparen, .int 1, .comma, .int 2, .rparen,
        .operator .plus, .int 3, .semicolon] =
      some [.exprS (.infx (.operator .plus)
        (.invoked (.identE f) [.lit (.int 1), .lit (.int 2)])
        (.lit (.int 3)))] :=
  fun _ _ _ _ _ => ⟨rfl, rfl, rfl, rfl⟩

/-! ### C5: the `Bool.neq_lhs` slot -/

/-- Claim C5 (code bug): the claim states `Bool`'s `neq_lhs` slot (the
dispatch target of infix `!=`) returns `val != rhs`.  The slot in
`Bool::erased` computes `val == rhs`: for all Booleans it returns the
equality, and at `a = b = true` it returns `Bool(true)` where the claim
demands `Bool(false)`. -/
theorem c5_bool_neq_slot_computes_eq :
    (∀ a b : Bool, vtCall (.boolV a) "neq_lhs" (some (.boolV b)) =
      some (.res (some (.boolV (a = b))))) ∧
    vtCall (.boolV true) "neq_lhs" (some (.boolV true)) =
      some (.res (some (.boolV true))) ∧
    Value.boolV true ≠ Value.boolV false :=
  ⟨fun _ _ => rfl, rfl, by simp⟩

/-! ### C6: `Str.truthy` and the empty string -/

/-- Claim C6 (code bug): the claim states `Str`'s `truthy` slot returns a
present value iff the string is non-empty, so `if "" {…} else {…}` takes
the else branch.  The slot in `Str::erased` always returns
`Some(Bool(len > 0))`; since `eval_if` tests only *presence*, the empty
string is truthy and the consequence branch is taken:
`if "" { 1 } else { 2 }` evaluates to `1`, not `2`. -/
theorem c6_empty_string_truthy_takes_then_branch :
    vtCall (.strV "") "truthy" none = some (.res (some (.boolV false))) ∧
    (evalNode 10 Stack.new (.expr (.ifE (.lit (.str ""))
        (.lit (.int 1)) (some (.lit (.int 2)))))).2 = .ok (.cont (.intV 1)) ∧
    Res.ok (Flow.cont (Value.intV 1)) ≠ Res.ok (Flow.cont (Value.intV 2)) :=
  ⟨rfl, rfl, by simp⟩

/-! ### C7: unknown token in nud position -/

/-- The tokens that reach the catch-all nud arm of `parse_expression` (the
claim's "none of LParen, LBrace, Ident, Int, Str, if, true, false, fn,
`!`, `-`"; `Str` is left out of this set, as in the claim's own list of
nud handlers). -/
def nudFallthrough : Tok → Bool
  | .semicolon => true
  | .eof => true
  | .comma => true
  | .rparen => true
  | .rbrace => true
  | .illegal => true
  | .operator .bang => false
  | .operator .minus => false
  | .operator _ => true
  | .keyword .kIf => false
  | .keyword .kTrue => false
  | .keyword .kFalse => false
  | .keyword .kFn => false
  | .keyword _ => true
  | _ => false

/-- Claim C7 (code bug): the claim states such a token records a parse
error and parsing returns normally without panicking.  The catch-all nud
arm of `parse_expression` is `todo!()`, a panic: every fall-through token
in nud position aborts the process, and parsing `+` as a whole program
panics instead of returning a `Program` with a recorded error. -/
theorem c7_nud_fallthrough_panics :
    (∀ (t : Tok), nudFallthrough t = true →
      ∀ (fuel : Nat) (prec : Precedence) (pk : Tok) (more : List Tok)
        (errs : List PError),
        parse_expression (fuel + 1) prec ⟨t, pk, more, errs⟩ = .panik) ∧
    parse_program 50 [.operator .plus] = .panik := by
  refine ⟨?_, rfl⟩
  intro t ht fuel prec pk more errs
  cases t with
  | operator o => cases o <;> first | rfl | simp [nudFallthrough] at ht
  | keyword k => cases k <;> first | rfl | simp [nudFallthrough] at ht
  | _ => first | rfl | simp [nudFallthrough] at ht

/-- Witness for C7's hypothesis at the concrete token `+`. -/
theorem c7_nud_fallthrough_panics_witness :
    nudFallthrough (.operator .plus) = true ∧
    parse_expression 1 .lowest ⟨.operator .plus, .eof, [], []⟩ = .panik :=
  ⟨rfl, c7_nud_fallthrough_panics.1 (.operator .plus) rfl 0 .lowest .eof [] []⟩

/-! ### C3: popping a lexical scope

`Stack::assign` and `Stack::pop` both index scopes as `len - 1`, but
`Stack::add` records `scope.len()` — one more.  `add` is only called by
`eval_invoke` on the base scope of a fresh activation frame, so a
parameter or capture is recorded at depth `1`, the same depth
`Stack::assign` uses for bindings made directly in the function body's
block (scope length 2, `cur_id = 1`).  A `let` of a parameter's name at
the top level of the body therefore *replaces* the parameter entry
(`assign` pops entries with depth `≥ cur_id` before pushing), and when
the body block closes, `pop` removes the replacement: the name is then
not retrievable at all — the shadowed pre-block binding is **not**
restored, refuting the claim's part (2) as stated.  The counterexample
below reaches that state through the evaluator itself.

For every other pre-block binding — anything `let`-bound or assigned, and
parameters or captures shadowed in any deeper block — the pre-block entry
sits at a depth strictly below the popped depth, and the claim's
behaviour is proved: each entry of a name in the popped set carries a
depth at most `prev_id = scope.len() - 1`, depths on a binding stack
never increase from the top down, and under those reachable-state facts
`pop` removes, for a name in the popped set, precisely the entries whose
depth equals `prev_id`. -/

/-- The callee stack `eval_invoke` builds for `fn(x) {…}` invoked with
`5` (fresh frame, parameter bound by `Stack::add`, empty capture list):
the state in which the function body's block begins to evaluate. -/
def c3CounterStack : Stack :=
  bindCapture (bindParams Stack.new.push_frame ["x"] [.intV 5]) []

/-- Claim C3, counterexample: in the reachable program state produced by
evaluating the body block of `let f = fn(x) { let x = 9; x }; f(5);`, the
parameter `x` was bound before the block (retrievable as `5`) and
shadowed inside it by `let x = 9`, yet after the block finishes `x` is
not retrievable at all: `Stack::add` recorded the parameter at depth 1
(`scope.len()`, the source's off-by-one), the body-level `assign`
computes `cur_id = 1` and destroys that entry while shadowing, and the
block's `pop` then removes the replacement — where the claim requires
`x` to be again retrievable at its pre-block value `5`. -/
theorem c3_param_shadow_not_restored :
    c3CounterStack.get "x" = some (.intV 5) ∧
    ((evalNode 20 c3CounterStack (.expr (.block
        [.letS "x" (.lit (.int 9)), .exprS (.identE "x")]))).1).get "x" =
      none ∧
    (evalNode 20 c3CounterStack (.expr (.block
        [.letS "x" (.lit (.int 9)), .exprS (.identE "x")]))).2 =
      .ok (.cont (.intV 9)) ∧
    (none : Option Value) ≠ some (.intV 5) :=
  ⟨rfl, rfl, rfl, by simp⟩

/-- On a binding stack whose depths are bounded by `d` and non-increasing
from the head, popping while `d ≤ depth` removes exactly the depth-`d`
entries. -/
theorem dropWhile_ge_eq_filter_ne (d : Nat) (l : List Entry)
    (hle : ∀ e ∈ l, e.2 ≤ d)
    (hs : l.Pairwise (fun a b => b.2 ≤ a.2)) :
    l.dropWhile (fun e => d ≤ e.2) = l.filter (fun e => e.2 ≠ d) := by
  induction l with
  | nil => simp
  | cons e tl ih =>
    rcases List.pairwise_cons.mp hs with ⟨he, htl⟩
    by_cases hd : e.2 = d
    · have hdrop : (e :: tl).dropWhile (fun e => d ≤ e.2) =
          tl.dropWhile (fun e => d ≤ e.2) := by
        simp [List.dropWhile_cons, hd]
      have hfilt : (e :: tl).filter (fun e => e.2 ≠ d) =
          tl.filter (fun e => e.2 ≠ d) := by
        simp [List.filter_cons, hd]
      rw [hdrop, hfilt]
      exact ih (fun x hx => hle x (List.mem_cons_of_mem _ hx)) htl
    · have hlt : e.2 < d :=
        lt_of_le_of_ne (hle e (List.mem_cons_self _ _)) hd
      have hdrop : (e :: tl).dropWhile (fun e => d ≤ e.2) = e :: tl := by
        simp [List.dropWhile_cons]
        omega
      have hfilt : (e :: tl).filter (fun e => e.2 ≠ d) = e :: tl := by
        refine List.filter_eq_self.mpr ?_
        intro x hx
        rcases List.mem_cons.mp hx with h | h
        · subst h; simpa using hd
        · have : x.2 ≤ e.2 := he x h
          simp only [ne_eq, decide_eq_true_eq]
          omega
      rw [hdrop, hfilt]

/-- Dropping an all-true prefix continues into the tail. -/
theorem dropWhile_append_of_all {α : Type} (p : α → Bool) :
    ∀ (pre l : List α), (∀ e ∈ pre, p e = true) →
      (pre ++ l).dropWhile p = l.dropWhile p
  | [], l, _ => rfl
  | e :: pre, l, h => by
    have he : p e = true := h e (List.mem_cons_self _ _)
    simp only [List.cons_append, List.dropWhile_cons, he, if_true]
    exact dropWhile_append_of_all p pre l
      (fun x hx => h x (List.mem_cons_of_mem _ hx))

/-- Claim C3, amended: after `Stack::pop` of a scope whose recorded
depths satisfy the reachable-state facts above (`prev_id = rest.length`
is the popped depth), (exact) a popped name keeps precisely its entries
of depth other than `prev_id`, (frame) names outside the popped set are
untouched, (1) a name whose every entry was made inside the block is no
longer retrievable, and (2) a name shadowed inside the block whose
pre-block binding was recorded at a depth **strictly below** the popped
depth — every `let`/assignment binding, and parameters or captures
shadowed in any block deeper than the body's own — is again retrievable
at its pre-block value.  The strict-depth proviso is exactly what the
counterexample `c3_param_shadow_not_restored` forces: a parameter or
capture (recorded by `Stack::add` at the popped depth itself) shadowed at
the top level of the function body is destroyed, not restored. -/
theorem c3_pop_removes_exactly_popped_depth
    (f : Frame) (out : List String) (rest : List (List String))
    (hscope : f.scope = out :: rest)
    (hle : ∀ n ∈ out, ∀ e ∈ f.vars n, e.2 ≤ rest.length)
    (hsorted : ∀ n ∈ out, (f.vars n).Pairwise (fun a b => b.2 ≤ a.2)) :
    (∀ n ∈ out, (f.pop).vars n =
      (f.vars n).filter (fun e => e.2 ≠ rest.length)) ∧
    (∀ n, n ∉ out → (f.pop).vars n = f.vars n) ∧
    (∀ n ∈ out, (∀ e ∈ f.vars n, e.2 = rest.length) →
      (f.pop).get n = none) ∧
    (∀ n ∈ out, ∀ (inner : List Entry) (v : Value) (d : Nat) (tl : List Entry),
      f.vars n = inner ++ (v, d) :: tl →
      (∀ e ∈ inner, e.2 = rest.length) → d < rest.length →
      (f.pop).get n = some v) := by
  obtain ⟨sc, vars⟩ := f
  simp only at hscope
  subst hscope
  have hpop : Frame.pop ⟨out :: rest, vars⟩ =
      ⟨rest, fun n => if n ∈ out then
        (vars n).dropWhile (fun e => rest.length ≤ e.2) else vars n⟩ := rfl
  refine ⟨?_, ?_, ?_, ?_⟩
  · intro n hn
    rw [hpop]
    simp only [if_pos hn]
    exact dropWhile_ge_eq_filter_ne _ _ (hle n hn) (hsorted n hn)
  · intro n hn
    rw [hpop]
    simp only [if_neg hn]
  · intro n hn hall
    have hall' : ∀ e ∈ vars n, e.2 = rest.length := hall
    have hv : (Frame.pop ⟨out :: rest, vars⟩).vars n =
        (vars n).filter (fun e => e.2 ≠ rest.length) := by
      rw [hpop]; simp only [if_pos hn]
      exact dropWhile_ge_eq_filter_ne _ _ (hle n hn) (hsorted n hn)
    have hnil : (vars n).filter (fun e => e.2 ≠ rest.length) = [] := by
      refine List.filter_eq_nil_iff.mpr ?_
      intro e he
      simp only [ne_eq, decide_eq_true_eq, not_not, decide_eq_false_iff_not]
      exact hall' e he
    simp only [Frame.get, hv, hnil, List.head?_nil, Option.map_none']
  · intro n hn inner v d tl hv hi hd
    have hv' : vars n = inner ++ (v, d) :: tl := hv
    have hdrop : (vars n).dropWhile (fun e => rest.length ≤ e.2) =
        (v, d) :: tl := by
      rw [hv', dropWhile_append_of_all _ inner _ (by
        intro e he
        simp only [decide_eq_true_eq]
        exact (hi e he).ge)]
      rw [List.dropWhile_cons_of_neg]
      simp only [decide_eq_true_eq]
      omega
    have hpv : (Frame.pop ⟨out :: rest, vars⟩).vars n = (v, d) :: tl := by
      rw [hpop]; simp only [if_pos hn]; exact hdrop
    simp only [Frame.get, hpv, List.head?_cons, Option.map_some']

/-- A concrete frame for the C3 witness: a single scope set `{x}` was
pushed over a base scope; `x` is bound at depth 0 (pre-block, value `1`)
and shadowed at depth 1 (inside the block, value `2`). -/
def c3Frame : Frame :=
  ⟨[["x"], []],
   fun n => if n = "x" then [(.intV 2, 1), (.intV 1, 0)] else []⟩

/-- Witness for C3 at `c3Frame`: popping the block scope restores the
shadowed pre-block binding `x ↦ 1`. -/
theorem c3_pop_removes_exactly_popped_depth_witness :
    c3Frame.scope = ["x"] :: [[]] ∧
    (c3Frame.pop).get "x" = some (.intV 1) := by
  refine ⟨rfl, ?_⟩
  have h := c3_pop_removes_exactly_popped_depth c3Frame ["x"] [[]]
    rfl (by decide) (by decide)
  exact h.2.2.2 "x" (by decide) [(.intV 2, 1)] (.intV 1) 0 []
    rfl (by decide) (by decide)

/-! ### C8: activation-frame isolation

`Stack::get` reads only the innermost frame, `Stack::push_frame` starts
that frame with nothing but the built-ins, and a function body's bindings
enter it through `Stack::add` (parameters and captures, `eval_invoke`) and
`Stack::assign` (`let` statements of the body).  `assignAll` below models
the body's `let` bindings in force. -/

/-- A sequence of `Stack::assign` operations (the `let` bindings a function
body has made, via `eval_assign`). -/
def assignAll (s : Stack) : List (String × Value) → Stack
  | [] => s
  | (i, v) :: rest => assignAll (s.assign i v) rest

/-- Frame-level image of `bindCapture` (proof helper). -/
def Frame.addAllF (f : Frame) : List (String × Value) → Frame
  | [] => f
  | (i, v) :: rest => (f.add i v).addAllF rest

/-- Frame-level image of `bindParams` (proof helper). -/
def Frame.bindPsF (f : Frame) : List String → List Value → Frame
  | p :: ps, a :: rest => (f.add p a).bindPsF ps rest
  | _, _ => f

/-- Frame-level image of `assignAll` (proof helper). -/
def Frame.assignAllF (f : Frame) : List (String × Value) → Frame
  | [] => f
  | (i, v) :: rest => (f.assign i v).assignAllF rest

theorem bindCapture_cons (l : List (String × Value)) :
    ∀ (f : Frame) (fr : List Frame),
      bindCapture ⟨f :: fr⟩ l = ⟨f.addAllF l :: fr⟩ := by
  induction l with
  | nil => intro f fr; rfl
  | cons p rest ih =>
    intro f fr
    obtain ⟨i, v⟩ := p
    simpa [bindCapture, Stack.add, Stack.onFrame, Frame.addAllF] using
      ih (f.add i v) fr

theorem bindParams_cons (ps : List String) :
    ∀ (av : List Value) (f : Frame) (fr : List Frame),
      bindParams ⟨f :: fr⟩ ps av = ⟨f.bindPsF ps av :: fr⟩ := by
  induction ps with
  | nil => intro av f fr; cases av <;> rfl
  | cons p ps ih =>
    intro av f fr
    cases av with
    | nil => rfl
    | cons a rest =>
      simpa [bindParams, Stack.add, Stack.onFrame, Frame.bindPsF] using
        ih rest (f.add p a) fr

theorem assignAll_cons (l : List (String × Value)) :
    ∀ (f : Frame) (fr : List Frame),
      assignAll ⟨f :: fr⟩ l = ⟨f.assignAllF l :: fr⟩ := by
  induction l with
  | nil => intro f fr; rfl
  | cons p rest ih =>
    intro f fr
    obtain ⟨i, v⟩ := p
    simpa [assignAll, Stack.assign, Stack.onFrame, Frame.assignAllF] using
      ih (f.assign i v) fr

theorem Frame.get_add (f : Frame) (i : String) (v : Value) (n : String) :
    (f.add i v).get n = if n = i then some v else f.get n := by
  by_cases h : n = i <;> simp [Frame.add, Frame.get, h]

theorem Frame.get_assign (f : Frame) (i : String) (v : Value) (n : String)
    (h : f.scope ≠ []) :
    (f.assign i v).get n = if n = i then some v else f.get n := by
  obtain ⟨sc, vars⟩ := f
  cases sc with
  | nil => exact absurd rfl h
  | cons top rest => by_cases hn : n = i <;> simp [Frame.assign, Frame.get, hn]

theorem Frame.scope_add_ne_nil (f : Frame) (i : String) (v : Value) :
    (f.add i v).scope ≠ [] := by
  obtain ⟨sc, vars⟩ := f
  cases sc <;> simp [Frame.add]

theorem Frame.scope_assign_ne_nil (f : Frame) (i : String) (v : Value)
    (h : f.scope ≠ []) : (f.assign i v).scope ≠ [] := by
  obtain ⟨sc, vars⟩ := f
  cases sc with
  | nil => exact absurd rfl h
  | cons top rest => simp [Frame.assign]

theorem Frame.scope_addAllF_ne_nil (l : List (String × Value)) :
    ∀ (f : Frame), f.scope ≠ [] → (f.addAllF l).scope ≠ [] := by
  induction l with
  | nil => intro f h; exact h
  | cons p rest ih =>
    intro f h
    obtain ⟨i, v⟩ := p
    exact ih (f.add i v) (f.scope_add_ne_nil i v)

theorem Frame.scope_bindPsF_ne_nil (ps : List String) :
    ∀ (av : List Value) (f : Frame), f.scope ≠ [] →
      (f.bindPsF ps av).scope ≠ [] := by
  induction ps with
  | nil => intro av f h; cases av <;> exact h
  | cons p ps ih =>
    intro av f h
    cases av with
    | nil => exact h
    | cons a rest => exact ih rest (f.add p a) (f.scope_add_ne_nil p a)

theorem Frame.isSome_get_addAllF (l : List (String × Value)) :
    ∀ (f : Frame) (n : String),
      ((f.addAllF l).get n).isSome = true ↔
        n ∈ l.map Prod.fst ∨ (f.get n).isSome = true := by
  induction l with
  | nil => intro f n; simp [Frame.addAllF]
  | cons p rest ih =>
    intro f n
    obtain ⟨i, v⟩ := p
    rw [Frame.addAllF, ih]
    by_cases h : n = i <;> simp [Frame.get_add, h]

theorem Frame.isSome_get_bindPsF (ps : List String) :
    ∀ (av : List Value) (f : Frame) (n : String), ps.length = av.length →
      (((f.bindPsF ps av).get n).isSome = true ↔
        n ∈ ps ∨ (f.get n).isSome = true) := by
  induction ps with
  | nil =>
    intro av f n hlen
    cases av with
    | nil => simp [Frame.bindPsF]
    | cons a rest => simp at hlen
  | cons p ps ih =>
    intro av f n hlen
    cases av with
    | nil => simp at hlen
    | cons a rest =>
      rw [Frame.bindPsF, ih rest _ n (by simpa using hlen)]
      by_cases h : n = p <;> simp [Frame.get_add, h]

theorem Frame.isSome_get_assignAllF (l : List (String × Value)) :
    ∀ (f : Frame) (n : String), f.scope ≠ [] →
      (((f.assignAllF l).get n).isSome = true ↔
        n ∈ l.map Prod.fst ∨ (f.get n).isSome = true) := by
  induction l with
  | nil => intro f n _; simp [Frame.assignAllF]
  | cons p rest ih =>
    intro f n hsc
    obtain ⟨i, v⟩ := p
    rw [Frame.assignAllF, ih _ n (f.scope_assign_ne_nil i v hsc)]
    by_cases h : n = i <;> simp [Frame.get_assign _ _ _ _ hsc, h]

/-- The fresh frame of `push_frame` retrieves exactly the built-ins. -/
theorem isSome_get_freshFrame (n : String) :
    ((Frame.get ⟨[[]], builtinsVars⟩ n).isSome = true) ↔ n ∈ builtinNames := by
  by_cases h : n ∈ builtinNames <;> simp [Frame.get, builtinsVars, h]

/-- Claim C8: during a function body's evaluation — a fresh activation
frame holding the parameters (`bindParams`), the captures (`bindCapture`)
and the body's own `let` bindings (`assignAll`) — a name is retrievable
**iff** it is a built-in, a parameter, a captured name, or bound by the
body.  The right-hand side does not mention the caller's stack `s`: no
caller binding is ever retrievable from inside the callee, whatever `s`
holds. -/
theorem c8_function_frame_isolation
    (s : Stack) (params : List String) (argv : List Value)
    (caps asg : List (String × Value)) (n : String)
    (hlen : params.length = argv.length) :
    ((assignAll (bindCapture (bindParams s.push_frame params argv) caps)
        asg).get n).isSome = true ↔
      (n ∈ builtinNames ∨ n ∈ params ∨ n ∈ caps.map Prod.fst ∨
        n ∈ asg.map Prod.fst) := by
  have hpf : s.push_frame = ⟨(⟨[[]], builtinsVars⟩ : Frame) :: s.frames⟩ := rfl
  rw [hpf, bindParams_cons, bindCapture_cons, assignAll_cons, Stack.get]
  have hsc1 : (Frame.bindPsF ⟨[[]], builtinsVars⟩ params argv).scope ≠ [] :=
    Frame.scope_bindPsF_ne_nil params argv _ (by simp)
  have hsc2 : ((Frame.bindPsF ⟨[[]], builtinsVars⟩ params argv).addAllF
      caps).scope ≠ [] := Frame.scope_addAllF_ne_nil caps _ hsc1
  rw [Frame.isSome_get_assignAllF asg _ n hsc2,
    Frame.isSome_get_addAllF caps _ n,
    Frame.isSome_get_bindPsF params argv _ n hlen,
    isSome_get_freshFrame n]
  tauto

/-- Witness for C8: one parameter `p`, one capture `c`, one body binding
`b`; the parameter is retrievable (and, e.g., a caller-only name like `q`
is not, since it is in none of the four sets). -/
theorem c8_function_frame_isolation_witness :
    (["p"].length = [Value.intV 1].length) ∧
    ((assignAll (bindCapture (bindParams Stack.new.push_frame ["p"]
        [.intV 1]) [("c", .intV 2)]) [("b", .intV 3)]).get "p").isSome = true :=
  ⟨rfl,
   (c8_function_frame_isolation Stack.new ["p"] [.intV 1] [("c", .intV 2)]
     [("b", .intV 3)] "p" rfl).mpr (by simp)⟩

/-! ### C9: vector indexing -/

/-- Claim C9: for an `i32` index into a vector (of any realisable length),
the `idx` slot returns the `i`-th element when `0 ≤ i < n` and `Unit`
otherwise — a negative index is cast through `as usize` into a huge word
(`2^64 + i`), always out of range.  The slot's result is always present
(`Some`), so `eval_index` never turns an in-type index into an evaluation
error. -/
theorem c9_vector_idx_in_range_or_unit
    (elements : List Value) (i : Int)
    (h1 : -(2 ^ 31) ≤ i) (h2 : i < 2 ^ 31) (h3 : elements.length < 2 ^ 63) :
    vtCall (.vecV elements) "idx" (some (.intV i)) =
      some (.res (some (if h : 0 ≤ i ∧ i.toNat < elements.length
        then elements.get ⟨i.toNat, h.2⟩ else .unitV))) := by
  have hv : vtCall (.vecV elements) "idx" (some (.intV i)) =
      some (.res (some ((elements.get? (usizeOfI32 i)).getD .unitV))) := rfl
  rw [hv]
  by_cases h0 : 0 ≤ i
  · have hcast : usizeOfI32 i = i.toNat := by
      unfold usizeOfI32
      rw [Int.emod_eq_of_lt h0 (by omega)]
    by_cases hlt : i.toNat < elements.length
    · rw [hcast, List.get?_eq_get hlt, dif_pos ⟨h0, hlt⟩]
      rfl
    · rw [hcast, List.get?_eq_none.mpr (by omega),
        dif_neg (fun hc => hlt hc.2)]
      rfl
  · have hcast : usizeOfI32 i = (i + 2 ^ 64).toNat := by
      unfold usizeOfI32
      rw [show i % 2 ^ 64 = i + 2 ^ 64 by omega]
    rw [hcast, List.get?_eq_none.mpr (by omega),
      dif_neg (fun hc => h0 hc.1)]
    rfl

/-- Witness for C9: in-range index `1` into `[10, 20]` yields `20`. -/
theorem c9_vector_idx_in_range_or_unit_witness :
    (-(2 ^ 31) ≤ (1 : Int) ∧ ([Value.intV 10, Value.intV 20].length < 2 ^ 63)) ∧
    vtCall (.vecV [.intV 10, .intV 20]) "idx" (some (.intV 1)) =
      some (.res (some (.intV 20))) := by
  refine ⟨⟨by norm_num, by norm_num⟩, ?_⟩
  have h := c9_vector_idx_in_range_or_unit [.intV 10, .intV 20] 1
    (by norm_num) (by norm_num) (by norm_num)
  rw [h, dif_pos (⟨by norm_num, by norm_num⟩ : (0 : Int) ≤ 1 ∧
    (1 : Int).toNat < [Value.intV 10, Value.intV 20].length)]
  rfl

/-! ### C10: unguarded integer division -/

/-- Claim C10, counterexample: the claim states that for **every** `b ≠ 0`
the slot returns the exact truncated `i32` quotient; at
`a = i32::MIN, b = -1` the exact quotient `2^31` is not an `i32` and the
bare Rust division aborts (overflow panic), so the slot panics for a
nonzero divisor too. -/
theorem c10_div_min_by_neg_one_panics :
    vtCall (.intV (-(2 ^ 31))) "div_lhs" (some (.intV (-1))) = some .panik ∧
    (-1 : Int) ≠ 0 ∧
    some SlotRes.panik ≠ some (SlotRes.res (some (.intV (2 ^ 31)))) :=
  ⟨rfl, by decide, by simp⟩

/-- Claim C10, amended: integer division is unguarded — for `i32` operands
the `div_lhs` slot performs the bare `i32` division, which panics (aborting
evaluation, with no recoverable error or absent-slot result) exactly when
`b = 0` or `(a, b) = (i32::MIN, -1)`, and otherwise returns the exact
truncated quotient, which is again a representable `i32`. -/
theorem c10_div_unguarded
    (a b : Int) (ha1 : -(2 ^ 31) ≤ a) (ha2 : a < 2 ^ 31)
    (hb1 : -(2 ^ 31) ≤ b) (hb2 : b < 2 ^ 31) :
    ((b = 0 ∨ (a = -(2 ^ 31) ∧ b = -1)) →
      vtCall (.intV a) "div_lhs" (some (.intV b)) = some .panik) ∧
    (b ≠ 0 → ¬(a = -(2 ^ 31) ∧ b = -1) →
      vtCall (.intV a) "div_lhs" (some (.intV b)) =
        some (.res (some (.intV (a.tdiv b)))) ∧
      -(2 ^ 31) ≤ a.tdiv b ∧ a.tdiv b < 2 ^ 31) := by
  have key : vtCall (.intV a) "div_lhs" (some (.intV b)) =
      some (if b = 0 ∨ (a = -(2 ^ 31) ∧ b = -1) then SlotRes.panik
        else SlotRes.res (some (.intV (a.tdiv b)))) := rfl
  constructor
  · intro h
    rw [key, if_pos h]
  · intro hb hmin
    have hcond : ¬(b = 0 ∨ (a = -(2 ^ 31) ∧ b = -1)) := by tauto
    refine ⟨by rw [key, if_neg hcond], ?_⟩
    by_cases hone : b = 1
    · subst hone
      rw [Int.tdiv_one]
      exact ⟨ha1, ha2⟩
    by_cases hmone : b = -1
    · subst hmone
      have hne : a ≠ -(2 ^ 31) := fun h => hmin ⟨h, rfl⟩
      rw [show (-1 : Int) = -(1 : Int) by norm_num, Int.tdiv_neg,
        Int.tdiv_one]
      omega
    · have hnb : 2 ≤ b.natAbs := by omega
      have hq : (a.tdiv b).natAbs ≤ 2 ^ 30 := by
        rw [Int.natAbs_tdiv]
        calc a.natAbs / b.natAbs ≤ 2 ^ 31 / b.natAbs :=
              Nat.div_le_div_right (by omega)
          _ ≤ 2 ^ 31 / 2 := Nat.div_le_div_left hnb (by norm_num)
          _ = 2 ^ 30 := by norm_num
      omega

/-- Witness for C10's hypotheses at `a = 7, b = -2` (truncated quotient
`-3`). -/
theorem c10_div_unguarded_witness :
    ((-2 : Int) ≠ 0 ∧ ¬((7 : Int) = -(2 ^ 31) ∧ (-2 : Int) = -1)) ∧
    vtCall (.intV 7) "div_lhs" (some (.intV (-2))) =
      some (.res (some (.intV (-3)))) := by
  refine ⟨⟨by norm_num, by norm_num⟩, ?_⟩
  have h := ((c10_div_unguarded 7 (-2) (by norm_num) (by norm_num)
    (by norm_num) (by norm_num)).2 (by norm_num) (by norm_num)).1
  rw [h]
  rfl

end Tabby
